import Mathlib

/-
  Verification of the on-chain encrypted-record lifecycle of
  `contracts/ForestFireRiskFHE.sol` (contract `ForestFireRiskFHE`).

  Shallow embedding conventions:
  * Solidity mappings become total functions with the zero value as default,
    updated pointwise by `fupdate`.
  * The fhevm `euint32` ciphertext handle is modelled transparently as the
    32-bit plaintext it encrypts together with an initialisation flag
    (an unset mapping slot holds the uninitialised handle).  Homomorphic
    addition (`FHE.add`) wraps modulo 2^32, matching fhevm's unchecked
    modular arithmetic; `FHE.asEuint32` trivially encrypts a constant.
  * The external decryption oracle (`FHE.requestDecryption`) is modelled as
    an environment that hands out fresh, never-zero request ids from a
    counter and records the plaintexts of the handles registered under each
    request id (field `registered`).  `FHE.checkSignatures` is modelled by a
    boolean argument `proofOk` given to each callback: `proofOk = true`
    means the proof attests that the supplied cleartexts are the authentic
    decryption registered under the request id, `false` means a forged or
    mismatched proof, which reverts.
  * Reverting calls return `Except.error`; by the EVM's transaction
    semantics an error leaves the contract state unchanged, which the
    transition function `step` makes explicit.
  * `uint256` arithmetic is checked in Solidity 0.8, so `dataCount += 1`
    reverts once `dataCount` reaches 2^256 - 1.
  * `keccak256(abi.encodePacked(category))` is an external primitive; it is
    modelled as an arbitrary function parameter `hashFn : String → Nat`.
-/

namespace ForestFire

/-- Transparent model of an fhevm `euint32` handle: the 32-bit plaintext it
encrypts plus a flag telling whether the handle is initialised (a fresh
mapping slot holds the uninitialised handle, for which `FHE.isInitialized`
returns false). -/
structure Euint32 where
  isInit : Bool
  val : Nat
deriving DecidableEq

instance : Inhabited Euint32 := ⟨⟨false, 0⟩⟩

/-- `FHE.asEuint32`: trivially encrypt a constant, reduced to 32 bits. -/
def asEuint32 (n : Nat) : Euint32 := ⟨true, n % 2 ^ 32⟩

/-- `FHE.add` on `euint32`: homomorphic addition, wrapping modulo 2^32. -/
def fheAdd (a b : Euint32) : Euint32 := ⟨true, (a.val + b.val) % 2 ^ 32⟩

/-- Struct `EncryptedData` of the contract. -/
structure EncryptedData where
  id : Nat
  encryptedTemperature : Euint32
  encryptedHumidity : Euint32
  encryptedVegetation : Euint32
  encryptedHistoricalFires : Euint32
  timestamp : Nat
deriving DecidableEq

instance : Inhabited EncryptedData := ⟨⟨0, default, default, default, default, 0⟩⟩

/-- Struct `DecryptedData` of the contract. -/
structure DecryptedData where
  temperature : String
  humidity : String
  vegetation : String
  historicalFires : String
  isRevealed : Bool
deriving DecidableEq

instance : Inhabited DecryptedData := ⟨⟨"", "", "", "", false⟩⟩

/-- Pointwise update of a Solidity mapping modelled as a total function. -/
def fupdate {α β : Type} [DecidableEq α] (f : α → β) (k : α) (v : β) : α → β :=
  fun x => if x = k then v else f x

/-- Full storage of contract `ForestFireRiskFHE`, together with the
bookkeeping of the external decryption oracle (`nextRequestId` and
`registered`). -/
structure ContractState where
  dataCount : Nat
  encryptedDataset : Nat → EncryptedData
  decryptedDataset : Nat → DecryptedData
  encryptedRiskCategoryCount : String → Euint32
  riskCategories : List String
  requestToDataId : Nat → Nat
  nextRequestId : Nat
  registered : Nat → Option (List Nat)

/-- Storage at deployment: every mapping holds its zero value; the oracle
hands out request ids starting from 1, so a request id is never 0. -/
def initState : ContractState where
  dataCount := 0
  encryptedDataset := fun _ => default
  decryptedDataset := fun _ => default
  encryptedRiskCategoryCount := fun _ => ⟨false, 0⟩
  riskCategories := []
  requestToDataId := fun _ => 0
  nextRequestId := 1
  registered := fun _ => none

/-- Bound of Solidity checked `uint256` arithmetic. -/
def U256LIMIT : Nat := 2 ^ 256

/-- Whether a call succeeded (did not revert). -/
def succeeds {ε α : Type} (e : Except ε α) : Bool :=
  match e with
  | .ok _ => true
  | .error _ => false

/-- `submitEncryptedData` (contract lines 45-72): allocates the next id,
stores the four ciphertext handles with the block timestamp, initialises an
empty unrevealed `DecryptedData` slot, and emits the new id.  The checked
increment of `dataCount` reverts on `uint256` overflow. -/
def submitEncryptedData (s : ContractState) (et eh ev ef : Euint32) (ts : Nat) :
    Except String (ContractState × Nat) :=
  if s.dataCount + 1 < U256LIMIT then
    let newId := s.dataCount + 1
    .ok ({ s with
            dataCount := newId
            encryptedDataset := fupdate s.encryptedDataset newId
              ⟨newId, et, eh, ev, ef, ts⟩
            decryptedDataset := fupdate s.decryptedDataset newId
              ⟨"", "", "", "", false⟩ }, newId)
  else .error "arithmetic overflow"

/-- `requestDataDecryption` (contract lines 75-89): requires the record not
yet revealed, packages the record's four ciphertext handles, asks the oracle
for a fresh request id and records the pending request.  The contract
performs no existence check on `dataId`. -/
def requestDataDecryption (s : ContractState) (dataId : Nat) :
    Except String (ContractState × Nat) :=
  if (s.decryptedDataset dataId).isRevealed then .error "Already decrypted"
  else
    let data := s.encryptedDataset dataId
    let reqId := s.nextRequestId
    .ok ({ s with
            requestToDataId := fupdate s.requestToDataId reqId dataId
            registered := fupdate s.registered reqId
              (some [data.encryptedTemperature.val, data.encryptedHumidity.val,
                     data.encryptedVegetation.val, data.encryptedHistoricalFires.val])
            nextRequestId := reqId + 1 }, reqId)

/-- `computeRiskCategory` (contract lines 129-131): placeholder returning a
fixed label for every revealed tuple. -/
def computeRiskCategory (_dData : DecryptedData) : String := "High"

/-- State mutation performed by a successful `decryptData` callback
(contract lines 106-123): write the four decoded cleartexts and the
`isRevealed` flag, then lazily initialise and increment the encrypted tally
of the computed risk category. -/
def applyReveal (s : ContractState) (dataId : Nat) (a b c d : String) :
    ContractState :=
  let dData : DecryptedData := ⟨a, b, c, d, true⟩
  let cat := computeRiskCategory dData
  let base :=
    if (s.encryptedRiskCategoryCount cat).isInit then s
    else { s with
            encryptedRiskCategoryCount :=
              fupdate s.encryptedRiskCategoryCount cat (asEuint32 0)
            riskCategories := s.riskCategories ++ [cat] }
  { base with
      decryptedDataset := fupdate base.decryptedDataset dataId dData
      encryptedRiskCategoryCount :=
        fupdate base.encryptedRiskCategoryCount cat
          (fheAdd (base.encryptedRiskCategoryCount cat) (asEuint32 1)) }

/-- `decryptData` (contract lines 92-126): the record-reveal callback.
Looks up the pending request, rejects the reserved zero target, rejects an
already revealed record, verifies the proof (`proofOk` models the outcome of
`FHE.checkSignatures`), decodes the cleartexts as a string array and
accesses its first four elements (out of bounds aborts), then applies the
reveal. -/
def decryptData (s : ContractState) (requestId : Nat) (cleartexts : List String)
    (proofOk : Bool) : Except String ContractState :=
  let dataId := s.requestToDataId requestId
  if dataId = 0 then .error "Invalid request"
  else if (s.decryptedDataset dataId).isRevealed then .error "Already decrypted"
  else if proofOk = false then .error "Invalid signatures"
  else
    match cleartexts with
    | a :: b :: c :: d :: _ => .ok (applyReveal s dataId a b c d)
    | _ => .error "array index out of bounds"

/-- `getDecryptedData` (contract lines 134-149): pure read of the decrypted
slot of any id, returning the stored tuple with no existence check. -/
def getDecryptedData (s : ContractState) (dataId : Nat) :
    String × String × String × String × Bool :=
  let r := s.decryptedDataset dataId
  (r.temperature, r.humidity, r.vegetation, r.historicalFires, r.isRevealed)

/-- `getEncryptedRiskCategoryCount` (contract lines 152-154). -/
def getEncryptedRiskCategoryCount (s : ContractState) (category : String) : Euint32 :=
  s.encryptedRiskCategoryCount category

/-- `requestRiskCategoryDecryption` (contract lines 157-166): requires an
initialised tally, asks the oracle to decrypt it and records the pending
request under the category's hash pseudo-id. -/
def requestRiskCategoryDecryption (hashFn : String → Nat) (s : ContractState)
    (category : String) : Except String (ContractState × Nat) :=
  let count := s.encryptedRiskCategoryCount category
  if count.isInit = false then .error "Category not found"
  else
    let reqId := s.nextRequestId
    .ok ({ s with
            requestToDataId := fupdate s.requestToDataId reqId (hashFn category)
            registered := fupdate s.registered reqId (some [count.val])
            nextRequestId := reqId + 1 }, reqId)

/-- `getCategoryFromHash` (contract lines 188-195): linear scan over the
known category labels for one whose hash matches; reverts when none does. -/
def getCategoryFromHash (hashFn : String → Nat) (cats : List String) (h : Nat) :
    Except String String :=
  match cats with
  | [] => .error "Category not found"
  | c :: rest => if hashFn c = h then .ok c else getCategoryFromHash hashFn rest h

/-- `decryptRiskCategory` (contract lines 169-181): the aggregate callback.
Resolves the category from the recorded hash pseudo-id (reverting when no
known label matches), verifies the proof, decodes a `uint32` count and stops
there — the contract mutates no storage in this callback, so only the
decoded count is returned. -/
def decryptRiskCategory (hashFn : String → Nat) (s : ContractState)
    (requestId : Nat) (cleartext : Nat) (proofOk : Bool) : Except String Nat :=
  let categoryHash := s.requestToDataId requestId
  match getCategoryFromHash hashFn s.riskCategories categoryHash with
  | .error e => .error e
  | .ok _category =>
      if proofOk = false then .error "Invalid signatures"
      else .ok (cleartext % 2 ^ 32)

/-- External operations on the contract, for reasoning about reachable
states. -/
inductive Op where
  | submit (et eh ev ef : Euint32) (ts : Nat)
  | reqData (dataId : Nat)
  | cbData (requestId : Nat) (cleartexts : List String) (proofOk : Bool)
  | reqCat (category : String)
  | cbCat (requestId : Nat) (cleartext : Nat) (proofOk : Bool)

/-- Transaction semantics of one operation: a reverting call leaves the
state unchanged, a succeeding call commits the new state. -/
def step (hashFn : String → Nat) (s : ContractState) (op : Op) : ContractState :=
  match op with
  | .submit et eh ev ef ts =>
      match submitEncryptedData s et eh ev ef ts with
      | .ok p => p.1
      | .error _ => s
  | .reqData dataId =>
      match requestDataDecryption s dataId with
      | .ok p => p.1
      | .error _ => s
  | .cbData requestId cleartexts proofOk =>
      match decryptData s requestId cleartexts proofOk with
      | .ok s' => s'
      | .error _ => s
  | .reqCat category =>
      match requestRiskCategoryDecryption hashFn s category with
      | .ok p => p.1
      | .error _ => s
  | .cbCat _ _ _ => s

/-- State reached from deployment by a list of operations. -/
def run (hashFn : String → Nat) (ops : List Op) : ContractState :=
  ops.foldl (step hashFn) initState

/-- One operation on a state paired with the running number of successful
`decryptData` callbacks (each of which reveals one further record). -/
def stepCount (hashFn : String → Nat) (sk : ContractState × Nat) (op : Op) :
    ContractState × Nat :=
  match op with
  | .cbData requestId cleartexts proofOk =>
      (step hashFn sk.1 op,
       if succeeds (decryptData sk.1 requestId cleartexts proofOk) then sk.2 + 1 else sk.2)
  | _ => (step hashFn sk.1 op, sk.2)

/-- Run from deployment, also counting the successful reveal callbacks. -/
def runCount (hashFn : String → Nat) (ops : List Op) : ContractState × Nat :=
  ops.foldl (stepCount hashFn) (initState, 0)

/-- Record-store invariant (claim C7): every id in `[1, dataCount]` holds
the encrypted record allocated under exactly that id, and no entry exists
outside that range (id 0 is reserved). -/
def recInv (s : ContractState) : Prop :=
  (∀ id, 1 ≤ id → id ≤ s.dataCount → (s.encryptedDataset id).id = id) ∧
  (∀ id, s.dataCount < id → s.encryptedDataset id = default) ∧
  s.encryptedDataset 0 = default


/-- Decrypted-slot invariant (claim C8): a slot whose `isRevealed` flag is
false still holds the zero tuple, and the reserved id 0 is never written. -/
def emptyInv (s : ContractState) : Prop :=
  (∀ id, (s.decryptedDataset id).isRevealed = false →
    s.decryptedDataset id = ⟨"", "", "", "", false⟩) ∧
  s.decryptedDataset 0 = ⟨"", "", "", "", false⟩


/-- Tally invariant (claim C5): after `k` successful `decryptData`
callbacks the encrypted tally of the only reachable category, `"High"`,
holds `k` modulo 2^32 (uninitialised while `k = 0`), no other category has
an initialised tally, and the label list contains exactly the categories
revealed into. -/
def tallyInv (s : ContractState) (k : Nat) : Prop :=
  (s.encryptedRiskCategoryCount "High" =
    if k = 0 then ⟨false, 0⟩ else ⟨true, k % 2 ^ 32⟩) ∧
  (∀ c, c ≠ "High" → s.encryptedRiskCategoryCount c = ⟨false, 0⟩) ∧
  s.riskCategories = (if k = 0 then [] else ["High"])


/-- One argument tuple of `submitEncryptedData`: the four ciphertext handles
and the block timestamp. -/
def SubmitInput : Type := Euint32 × Euint32 × Euint32 × Euint32 × Nat

/-- Run a sequence of `submitEncryptedData` calls, collecting the ids
emitted by the successful ones (a reverting call emits nothing and leaves
the state unchanged). -/
def submitMany (s : ContractState) : List SubmitInput → ContractState × List Nat
  | [] => (s, [])
  | x :: rest =>
      match submitEncryptedData s x.1 x.2.1 x.2.2.1 x.2.2.2.1 x.2.2.2.2 with
      | .ok p =>
          let r := submitMany p.1 rest
          (r.1, p.2 :: r.2)
      | .error _ => submitMany s rest


/-- Outcome of one aggregate-path request: the committed state and the
fresh request id (unchanged state and id 0 when the request reverts). -/
def catStep (hashFn : String → Nat) (s : ContractState) (category : String) :
    ContractState × Nat :=
  match requestRiskCategoryDecryption hashFn s category with
  | .ok p => p
  | .error _ => (s, 0)

/-- Concrete stand-in for the external `keccak256` hash in witnesses. -/
def hashOne : String → Nat := fun _ => 1

/-- Concrete ciphertext handle used by witness scenarios. -/
def eW : Euint32 := asEuint32 20

/-- Witness scenario: state after one submission. -/
def sW1 : ContractState := step hashOne initState (.submit eW eW eW eW 0)

/-- Witness scenario: state after submitting and requesting reveal of id 1. -/
def sW2 : ContractState := step hashOne sW1 (.reqData 1)

/-- Witness scenario: state after the valid reveal callback for id 1. -/
def sW3 : ContractState := step hashOne sW2 (.cbData 1 ["20", "55", "03", "2"] true)

/-- One submit/request/callback round on record `i + 1`. -/
def blockOps (i : Nat) : List Op :=
  [Op.submit eW eW eW eW 0, Op.reqData (i + 1),
   Op.cbData (i + 1) ["20", "55", "03", "2"] true]

/-- Trace revealing records 1..n into category "High". -/
def bigTrace : Nat → List Op
  | 0 => []
  | n + 1 => bigTrace n ++ blockOps n

/-- Number of reveals at which the 32-bit tally wraps to zero. -/
def NBIG : Nat := 2 ^ 32

/-- Witness scenario for the aggregate path: one full reveal round. -/
def opsW5 : List Op :=
  [Op.submit eW eW eW eW 0, Op.reqData 1, Op.cbData 1 ["20", "55", "03", "2"] true]

/-! ### Basic lemmas about the embedding -/

@[simp]
theorem fupdate_same {α β : Type} [DecidableEq α] (f : α → β) (k : α) (v : β) :
    fupdate f k v k = v := by
  simp [fupdate]

theorem fupdate_ne {α β : Type} [DecidableEq α] (f : α → β) (k : α) (v : β)
    (x : α) (hx : x ≠ k) : fupdate f k v x = f x := by
  simp [fupdate, hx]

theorem succeeds_iff {ε α : Type} (e : Except ε α) :
    succeeds e = true ↔ ∃ a, e = .ok a := by
  cases e <;> simp [succeeds]

@[simp] theorem applyReveal_dataCount (s : ContractState) (dataId : Nat)
    (a b c d : String) : (applyReveal s dataId a b c d).dataCount = s.dataCount := by
  by_cases h : (s.encryptedRiskCategoryCount "High").isInit = true <;>
    simp [applyReveal, computeRiskCategory, h]

@[simp] theorem applyReveal_encryptedDataset (s : ContractState) (dataId : Nat)
    (a b c d : String) :
    (applyReveal s dataId a b c d).encryptedDataset = s.encryptedDataset := by
  by_cases h : (s.encryptedRiskCategoryCount "High").isInit = true <;>
    simp [applyReveal, computeRiskCategory, h]

@[simp] theorem applyReveal_decryptedDataset (s : ContractState) (dataId : Nat)
    (a b c d : String) :
    (applyReveal s dataId a b c d).decryptedDataset =
      fupdate s.decryptedDataset dataId ⟨a, b, c, d, true⟩ := by
  by_cases h : (s.encryptedRiskCategoryCount "High").isInit = true <;>
    simp [applyReveal, computeRiskCategory, h]

@[simp] theorem applyReveal_requestToDataId (s : ContractState) (dataId : Nat)
    (a b c d : String) :
    (applyReveal s dataId a b c d).requestToDataId = s.requestToDataId := by
  by_cases h : (s.encryptedRiskCategoryCount "High").isInit = true <;>
    simp [applyReveal, computeRiskCategory, h]

@[simp] theorem applyReveal_nextRequestId (s : ContractState) (dataId : Nat)
    (a b c d : String) :
    (applyReveal s dataId a b c d).nextRequestId = s.nextRequestId := by
  by_cases h : (s.encryptedRiskCategoryCount "High").isInit = true <;>
    simp [applyReveal, computeRiskCategory, h]

@[simp] theorem applyReveal_registered (s : ContractState) (dataId : Nat)
    (a b c d : String) :
    (applyReveal s dataId a b c d).registered = s.registered := by
  by_cases h : (s.encryptedRiskCategoryCount "High").isInit = true <;>
    simp [applyReveal, computeRiskCategory, h]

theorem applyReveal_riskCategories (s : ContractState) (dataId : Nat)
    (a b c d : String) :
    (applyReveal s dataId a b c d).riskCategories =
      if (s.encryptedRiskCategoryCount "High").isInit then s.riskCategories
      else s.riskCategories ++ ["High"] := by
  by_cases h : (s.encryptedRiskCategoryCount "High").isInit = true <;>
    simp [applyReveal, computeRiskCategory, h]

theorem applyReveal_count_high (s : ContractState) (dataId : Nat)
    (a b c d : String) :
    (applyReveal s dataId a b c d).encryptedRiskCategoryCount "High" =
      fheAdd (if (s.encryptedRiskCategoryCount "High").isInit
              then s.encryptedRiskCategoryCount "High" else asEuint32 0)
             (asEuint32 1) := by
  by_cases h : (s.encryptedRiskCategoryCount "High").isInit = true <;>
    simp [applyReveal, computeRiskCategory, h]

theorem applyReveal_count_other (s : ContractState) (dataId : Nat)
    (a b c d : String) (cat : String) (hcat : cat ≠ "High") :
    (applyReveal s dataId a b c d).encryptedRiskCategoryCount cat =
      s.encryptedRiskCategoryCount cat := by
  by_cases h : (s.encryptedRiskCategoryCount "High").isInit = true <;>
    simp [applyReveal, computeRiskCategory, h, fupdate_ne _ _ _ _ hcat]

/-- Success characterisation of the `decryptData` callback: it commits
exactly when the pending request resolves to a non-zero id, the target is
not yet revealed, the proof verifies and the decoded cleartext array has at
least four elements; the committed state is `applyReveal`. -/
theorem decryptData_ok_iff {s : ContractState} {r : Nat} {cts : List String}
    {p : Bool} {s' : ContractState} :
    decryptData s r cts p = .ok s' ↔
      s.requestToDataId r ≠ 0 ∧
      (s.decryptedDataset (s.requestToDataId r)).isRevealed = false ∧
      p = true ∧
      ∃ a b c d rest, cts = a :: b :: c :: d :: rest ∧
        s' = applyReveal s (s.requestToDataId r) a b c d := by
  by_cases h1 : s.requestToDataId r = 0
  · simp [decryptData, h1]
  · by_cases h2 : (s.decryptedDataset (s.requestToDataId r)).isRevealed = true
    · simp [decryptData, h1, h2]
    · by_cases h3 : p = true
      · rcases cts with _ | ⟨a, _ | ⟨b, _ | ⟨c, _ | ⟨d, rest⟩⟩⟩⟩ <;>
          simp [decryptData, h1, h2, h3, eq_comm]
        exact ⟨fun h => ⟨a, b, c, d, ⟨rfl, rfl, rfl, rfl⟩, h⟩,
               fun h => by
                 obtain ⟨a1, b1, c1, d1, ⟨ha, hb, hc, hd⟩, hh⟩ := h
                 subst ha hb hc hd
                 exact hh⟩
      · simp [decryptData, h1, h2, h3]

theorem decryptData_error_ne_zero {s : ContractState} {r : Nat}
    {cts : List String} {p : Bool} (h : s.requestToDataId r = 0) :
    decryptData s r cts p = .error "Invalid request" := by
  unfold decryptData
  simp [h]

theorem decryptData_error_revealed {s : ContractState} {r : Nat}
    {cts : List String} {p : Bool} (h0 : s.requestToDataId r ≠ 0)
    (h : (s.decryptedDataset (s.requestToDataId r)).isRevealed = true) :
    decryptData s r cts p = .error "Already decrypted" := by
  unfold decryptData
  simp [h0, h]

theorem step_cbData_error {hashFn : String → Nat} {s : ContractState} {r : Nat}
    {cts : List String} {p : Bool} {e : String}
    (h : decryptData s r cts p = .error e) :
    step hashFn s (.cbData r cts p) = s := by
  simp only [step]
  rw [h]

theorem getCategoryFromHash_miss (hashFn : String → Nat) (cats : List String)
    (h : Nat) (hm : ∀ c ∈ cats, hashFn c ≠ h) :
    getCategoryFromHash hashFn cats h = .error "Category not found" := by
  induction cats with
  | nil => rfl
  | cons c rest ih =>
      unfold getCategoryFromHash
      rw [if_neg (hm c (by simp))]
      exact ih fun x hx => hm x (by simp [hx])

/-- Invariants preserved by every step hold in every reachable state. -/
theorem foldl_preserve {σ : Type} (P : σ → Prop) (f : σ → Op → σ)
    (hf : ∀ s op, P s → P (f s op)) :
    ∀ ops : List Op, ∀ s, P s → P (ops.foldl f s) := by
  intro ops
  induction ops with
  | nil => intro s hs; exact hs
  | cons op rest ih => intro s hs; exact ih _ (hf s op hs)

theorem stepCount_fst (hashFn : String → Nat) (sk : ContractState × Nat)
    (op : Op) : (stepCount hashFn sk op).1 = step hashFn sk.1 op := by
  cases op <;> rfl

theorem runCount_fst (hashFn : String → Nat) (ops : List Op) :
    (runCount hashFn ops).1 = run hashFn ops := by
  unfold runCount run
  suffices h : ∀ s k, (ops.foldl (stepCount hashFn) (s, k)).1 =
      ops.foldl (step hashFn) s from h initState 0
  induction ops with
  | nil => intro s k; rfl
  | cons op rest ih =>
      intro s k
      have h1 : List.foldl (stepCount hashFn) ((s, k)) (op :: rest) =
          List.foldl (stepCount hashFn) (stepCount hashFn (s, k) op) rest := rfl
      rw [h1]
      have h2 := ih (step hashFn s op) (stepCount hashFn (s, k) op).2
      calc (List.foldl (stepCount hashFn) (stepCount hashFn (s, k) op) rest).1
          = (List.foldl (stepCount hashFn)
              ((step hashFn s op, (stepCount hashFn (s, k) op).2)) rest).1 := by
            rw [show stepCount hashFn (s, k) op =
              ((step hashFn s op, (stepCount hashFn (s, k) op).2)) from
              Prod.ext (stepCount_fst hashFn (s, k) op) rfl]
        _ = List.foldl (step hashFn) (step hashFn s op) rest := h2

/-! ### Reachable-state invariants -/


theorem recInv_congr (s s' : ContractState) (hdc : s'.dataCount = s.dataCount)
    (hed : s'.encryptedDataset = s.encryptedDataset) (h : recInv s) :
    recInv s' := by
  unfold recInv at h ⊢
  rw [hdc, hed]
  exact h

theorem step_cbData_ok {hashFn : String → Nat} {s s' : ContractState} {r : Nat}
    {cts : List String} {p : Bool} (h : decryptData s r cts p = .ok s') :
    step hashFn s (.cbData r cts p) = s' := by
  simp only [step]
  rw [h]

theorem recInv_step (hashFn : String → Nat) (s : ContractState) (op : Op)
    (h : recInv s) : recInv (step hashFn s op) := by
  obtain ⟨h1, h2, h3⟩ := h
  cases op with
  | submit et eh ev ef ts =>
      by_cases hc : s.dataCount + 1 < U256LIMIT
      · simp only [step, submitEncryptedData, if_pos hc]
        unfold recInv
        dsimp only
        refine ⟨?_, ?_, ?_⟩
        · intro id hid1 hid2
          by_cases he : id = s.dataCount + 1
          · subst he
            simp [fupdate]
          · rw [fupdate_ne _ _ _ _ he]
            exact h1 id hid1 (by omega)
        · intro id hgt
          rw [fupdate_ne _ _ _ _ (by omega)]
          exact h2 id (by omega)
        · rw [fupdate_ne _ _ _ _ (by omega)]
          exact h3
      · simp only [step, submitEncryptedData, if_neg hc]
        exact ⟨h1, h2, h3⟩
  | reqData dataId =>
      by_cases hr : (s.decryptedDataset dataId).isRevealed = true
      · simp only [step, requestDataDecryption, if_pos hr]
        exact ⟨h1, h2, h3⟩
      · simp only [step, requestDataDecryption, if_neg hr]
        exact ⟨h1, h2, h3⟩
  | cbData r cts p =>
      cases hd : decryptData s r cts p with
      | error e =>
          rw [step_cbData_error hd]
          exact ⟨h1, h2, h3⟩
      | ok s' =>
          rw [step_cbData_ok hd]
          obtain ⟨_, _, _, a, b, c, d, rest, _, hs'⟩ := decryptData_ok_iff.mp hd
          subst hs'
          exact recInv_congr _ _ (applyReveal_dataCount _ _ _ _ _ _)
            (applyReveal_encryptedDataset _ _ _ _ _ _) ⟨h1, h2, h3⟩
  | reqCat category =>
      by_cases hi : (s.encryptedRiskCategoryCount category).isInit = false
      · simp only [step, requestRiskCategoryDecryption, if_pos hi]
        exact ⟨h1, h2, h3⟩
      · simp only [step, requestRiskCategoryDecryption, if_neg hi]
        exact ⟨h1, h2, h3⟩
  | cbCat r c p =>
      exact ⟨h1, h2, h3⟩

theorem recInv_init : recInv initState := by
  refine ⟨?_, ?_, rfl⟩
  · intro id hid1 hid2
    simp [initState] at hid2
    omega
  · intro id _
    rfl

theorem recInv_run (hashFn : String → Nat) (ops : List Op) :
    recInv (run hashFn ops) :=
  foldl_preserve recInv (step hashFn) (recInv_step hashFn) ops initState recInv_init


theorem emptyInv_congr (s s' : ContractState)
    (hdd : s'.decryptedDataset = s.decryptedDataset) (h : emptyInv s) :
    emptyInv s' := by
  unfold emptyInv at h ⊢
  rw [hdd]
  exact h

theorem emptyInv_step (hashFn : String → Nat) (s : ContractState) (op : Op)
    (h : emptyInv s) : emptyInv (step hashFn s op) := by
  obtain ⟨h1, h2⟩ := h
  cases op with
  | submit et eh ev ef ts =>
      by_cases hc : s.dataCount + 1 < U256LIMIT
      · simp only [step, submitEncryptedData, if_pos hc]
        unfold emptyInv
        dsimp only
        refine ⟨?_, ?_⟩
        · intro id hrev
          by_cases he : id = s.dataCount + 1
          · subst he
            simp [fupdate]
          · rw [fupdate_ne _ _ _ _ he] at hrev ⊢
            exact h1 id hrev
        · rw [fupdate_ne _ _ _ _ (by omega)]
          exact h2
      · simp only [step, submitEncryptedData, if_neg hc]
        exact ⟨h1, h2⟩
  | reqData dataId =>
      by_cases hr : (s.decryptedDataset dataId).isRevealed = true
      · simp only [step, requestDataDecryption, if_pos hr]
        exact ⟨h1, h2⟩
      · simp only [step, requestDataDecryption, if_neg hr]
        exact ⟨h1, h2⟩
  | cbData r cts p =>
      cases hd : decryptData s r cts p with
      | error e =>
          rw [step_cbData_error hd]
          exact ⟨h1, h2⟩
      | ok s' =>
          rw [step_cbData_ok hd]
          obtain ⟨hz, _, _, a, b, c, d, rest, _, hs'⟩ := decryptData_ok_iff.mp hd
          subst hs'
          refine ⟨?_, ?_⟩
          · intro id hrev
            rw [applyReveal_decryptedDataset] at hrev ⊢
            by_cases he : id = s.requestToDataId r
            · subst he
              simp [fupdate] at hrev
            · rw [fupdate_ne _ _ _ _ he] at hrev ⊢
              exact h1 id hrev
          · rw [applyReveal_decryptedDataset,
              fupdate_ne _ _ _ _ fun h0 => hz h0.symm]
            exact h2
  | reqCat category =>
      by_cases hi : (s.encryptedRiskCategoryCount category).isInit = false
      · simp only [step, requestRiskCategoryDecryption, if_pos hi]
        exact ⟨h1, h2⟩
      · simp only [step, requestRiskCategoryDecryption, if_neg hi]
        exact ⟨h1, h2⟩
  | cbCat r c p =>
      exact ⟨h1, h2⟩

theorem emptyInv_init : emptyInv initState :=
  ⟨fun _ _ => rfl, rfl⟩

theorem emptyInv_run (hashFn : String → Nat) (ops : List Op) :
    emptyInv (run hashFn ops) :=
  foldl_preserve emptyInv (step hashFn) (emptyInv_step hashFn) ops initState
    emptyInv_init


theorem tallyInv_congr (s s' : ContractState) (k : Nat)
    (hcnt : s'.encryptedRiskCategoryCount = s.encryptedRiskCategoryCount)
    (hcats : s'.riskCategories = s.riskCategories) (h : tallyInv s k) :
    tallyInv s' k := by
  unfold tallyInv at h ⊢
  rw [hcnt, hcats]
  exact h

theorem fheAdd_mod (a : Nat) :
    fheAdd ⟨true, a % 2 ^ 32⟩ (asEuint32 1) = ⟨true, (a + 1) % 2 ^ 32⟩ := by
  have hp : (2 : Nat) ^ 32 = 4294967296 := by norm_num
  unfold fheAdd asEuint32
  rw [Euint32.mk.injEq]
  refine ⟨rfl, ?_⟩
  dsimp only
  rw [hp]
  omega

theorem applyReveal_count_high_of (s : ContractState) (dataId : Nat)
    (a b c d : String) (k : Nat)
    (h : s.encryptedRiskCategoryCount "High" =
      if k = 0 then ⟨false, 0⟩ else ⟨true, k % 2 ^ 32⟩) :
    (applyReveal s dataId a b c d).encryptedRiskCategoryCount "High" =
      ⟨true, (k + 1) % 2 ^ 32⟩ := by
  rw [applyReveal_count_high, h]
  by_cases hk : k = 0
  · subst hk
    rw [if_pos rfl]
    show fheAdd ⟨true, 0 % 2 ^ 32⟩ (asEuint32 1) = _
    rw [fheAdd_mod]
  · rw [if_neg hk]
    show fheAdd ⟨true, k % 2 ^ 32⟩ (asEuint32 1) = _
    rw [fheAdd_mod]

theorem applyReveal_cats_of (s : ContractState) (dataId : Nat)
    (a b c d : String) (k : Nat)
    (h : s.encryptedRiskCategoryCount "High" =
      if k = 0 then ⟨false, 0⟩ else ⟨true, k % 2 ^ 32⟩)
    (hc : s.riskCategories = if k = 0 then [] else ["High"]) :
    (applyReveal s dataId a b c d).riskCategories = ["High"] := by
  rw [applyReveal_riskCategories, h, hc]
  by_cases hk : k = 0
  · subst hk
    simp
  · rw [if_neg hk, if_neg hk]
    rfl

theorem tallyInv_stepCount (hashFn : String → Nat) (sk : ContractState × Nat)
    (op : Op) (h : tallyInv sk.1 sk.2) :
    tallyInv (stepCount hashFn sk op).1 (stepCount hashFn sk op).2 := by
  obtain ⟨s, k⟩ := sk
  obtain ⟨hHigh, hOther, hCats⟩ := h
  cases op with
  | submit et eh ev ef ts =>
      refine tallyInv_congr s _ k ?_ ?_ ⟨hHigh, hOther, hCats⟩ <;>
      · by_cases hc : s.dataCount + 1 < U256LIMIT
        · simp [stepCount, step, submitEncryptedData, if_pos hc]
        · simp [stepCount, step, submitEncryptedData, if_neg hc]
  | reqData dataId =>
      refine tallyInv_congr s _ k ?_ ?_ ⟨hHigh, hOther, hCats⟩ <;>
      · by_cases hr : (s.decryptedDataset dataId).isRevealed = true
        · simp [stepCount, step, requestDataDecryption, if_pos hr]
        · simp [stepCount, step, requestDataDecryption, if_neg hr]
  | reqCat category =>
      refine tallyInv_congr s _ k ?_ ?_ ⟨hHigh, hOther, hCats⟩ <;>
      · by_cases hi : (s.encryptedRiskCategoryCount category).isInit = false
        · simp [stepCount, step, requestRiskCategoryDecryption, if_pos hi]
        · simp [stepCount, step, requestRiskCategoryDecryption, if_neg hi]
  | cbCat r c p =>
      exact ⟨hHigh, hOther, hCats⟩
  | cbData r cts p =>
      cases hd : decryptData s r cts p with
      | error e =>
          have hs : stepCount hashFn (s, k) (.cbData r cts p) = (s, k) := by
            simp [stepCount, hd, succeeds, step]
          rw [hs]
          exact ⟨hHigh, hOther, hCats⟩
      | ok s' =>
          have hs : stepCount hashFn (s, k) (.cbData r cts p) = (s', k + 1) := by
            simp [stepCount, hd, succeeds, step]
          rw [hs]
          obtain ⟨_, _, _, a, b, c, d, rest, _, hs'⟩ := decryptData_ok_iff.mp hd
          subst hs'
          dsimp only at hHigh hOther hCats
          refine ⟨?_, ?_, ?_⟩
          · rw [applyReveal_count_high_of _ _ _ _ _ _ k hHigh,
              if_neg (Nat.succ_ne_zero k)]
          · intro c hc
            rw [applyReveal_count_other _ _ _ _ _ _ _ hc]
            exact hOther c hc
          · rw [applyReveal_cats_of _ _ _ _ _ _ k hHigh hCats,
              if_neg (Nat.succ_ne_zero k)]

theorem tallyInv_init : tallyInv initState 0 :=
  ⟨rfl, fun _ _ => rfl, rfl⟩

theorem tallyInv_runCount (hashFn : String → Nat) (ops : List Op) :
    tallyInv (runCount hashFn ops).1 (runCount hashFn ops).2 := by
  unfold runCount
  exact foldl_preserve (fun sk => tallyInv sk.1 sk.2) (stepCount hashFn)
    (tallyInv_stepCount hashFn) ops (initState, 0) tallyInv_init

/-! ### Sequences of submissions (claim C6) -/


theorem submitMany_ids (xs : List SubmitInput) : ∀ s : ContractState,
    (submitMany s xs).2 =
      List.range' (s.dataCount + 1) (min xs.length (U256LIMIT - 1 - s.dataCount)) := by
  induction xs with
  | nil =>
      intro s
      simp [submitMany]
  | cons x rest ih =>
      intro s
      by_cases hc : s.dataCount + 1 < U256LIMIT
      · simp only [submitMany, submitEncryptedData, if_pos hc]
        rw [ih]
        dsimp only
        have hM : min rest.length (U256LIMIT - 1 - (s.dataCount + 1)) + 1 =
            min (x :: rest).length (U256LIMIT - 1 - s.dataCount) := by
          simp only [List.length_cons]
          omega
        rw [← hM, List.range'_succ]
      · simp only [submitMany, submitEncryptedData, if_neg hc]
        rw [ih]
        have hM : min rest.length (U256LIMIT - 1 - s.dataCount) =
            min (x :: rest).length (U256LIMIT - 1 - s.dataCount) := by
          simp only [List.length_cons]
          omega
        rw [hM]

/-! ### Claims -/

/-- C2: proof verification happens before any state mutation in
`decryptData`: a callback whose proof does not attest the cleartexts
(`proofOk = false`) always reverts, and the transaction leaves the contract
state unchanged, even when the cleartexts are well-formed. -/
theorem claim_C2 (hashFn : String → Nat) (s : ContractState) (r : Nat)
    (cts : List String) :
    succeeds (decryptData s r cts false) = false ∧
    step hashFn s (.cbData r cts false) = s := by
  cases hd : decryptData s r cts false with
  | ok s' =>
      obtain ⟨_, _, hp, _⟩ := decryptData_ok_iff.mp hd
      exact absurd hp (by simp)
  | error e =>
      exact ⟨rfl, step_cbData_error hd⟩

/-- C9: `computeRiskCategory` returns the fixed label "High" for every
revealed tuple, so every successful `decryptData` callback increments the
"High" category tally by one (modulo 2^32, from 0 when uninitialised). -/
theorem claim_C9 (s : ContractState) (r : Nat) (cts : List String) (p : Bool)
    (s' : ContractState) (h : decryptData s r cts p = .ok s') :
    (∀ d : DecryptedData, computeRiskCategory d = "High") ∧
    (s'.encryptedRiskCategoryCount "High").isInit = true ∧
    (s'.encryptedRiskCategoryCount "High").val =
      ((if (s.encryptedRiskCategoryCount "High").isInit
        then (s.encryptedRiskCategoryCount "High").val else 0) + 1) % 2 ^ 32 := by
  obtain ⟨_, _, _, a, b, c, d, rest, _, hs'⟩ := decryptData_ok_iff.mp h
  subst hs'
  refine ⟨fun _ => rfl, ?_, ?_⟩
  · rw [applyReveal_count_high]
    rfl
  · rw [applyReveal_count_high]
    have hp : (2 : Nat) ^ 32 = 4294967296 := by norm_num
    by_cases hi : (s.encryptedRiskCategoryCount "High").isInit = true
    · rw [if_pos hi, if_pos hi]
      show ((s.encryptedRiskCategoryCount "High").val + 1 % 2 ^ 32) % 2 ^ 32 = _
      rw [hp]
    · rw [if_neg hi, if_neg hi]
      show (0 % 2 ^ 32 + 1 % 2 ^ 32) % 2 ^ 32 = _
      rw [hp]

/-- C9 witness: the first reveal initialises the "High" tally to 0 and
increments it to 1. -/
theorem claim_C9_witness :
    (∀ d : DecryptedData, computeRiskCategory d = "High") ∧
    (sW3.encryptedRiskCategoryCount "High").isInit = true ∧
    (sW3.encryptedRiskCategoryCount "High").val =
      ((if (sW2.encryptedRiskCategoryCount "High").isInit
        then (sW2.encryptedRiskCategoryCount "High").val else 0) + 1) % 2 ^ 32 :=
  claim_C9 sW2 1 ["20", "55", "03", "2"] true sW3 rfl

/-- C10: the four array accesses of `decryptData` are in bounds exactly when
the decoded cleartext array has at least four elements; a shorter array
makes the callback abort with no state mutation, before `isRevealed` is
set. -/
theorem claim_C10 (hashFn : String → Nat) (s : ContractState) (r : Nat)
    (cts : List String) (p : Bool) :
    (cts.length < 4 → succeeds (decryptData s r cts p) = false ∧
      step hashFn s (.cbData r cts p) = s) ∧
    (s.requestToDataId r ≠ 0 →
      (s.decryptedDataset (s.requestToDataId r)).isRevealed = false → p = true →
      (succeeds (decryptData s r cts p) = true ↔ 4 ≤ cts.length)) := by
  constructor
  · intro hlen
    cases hd : decryptData s r cts p with
    | ok s' =>
        obtain ⟨_, _, _, a, b, c, d, rest, hcts, _⟩ := decryptData_ok_iff.mp hd
        subst hcts
        simp only [List.length_cons] at hlen
        omega
    | error e =>
        exact ⟨rfl, step_cbData_error hd⟩
  · intro h1 h2 h3
    constructor
    · intro hsucc
      obtain ⟨s', hs'⟩ := (succeeds_iff _).mp hsucc
      obtain ⟨_, _, _, a, b, c, d, rest, hcts, _⟩ := decryptData_ok_iff.mp hs'
      subst hcts
      simp
    · intro hlen
      rcases cts with _ | ⟨a, _ | ⟨b, _ | ⟨c, _ | ⟨d, rest⟩⟩⟩⟩
      · simp at hlen
      · simp at hlen
      · simp at hlen
      · simp at hlen
      · exact (succeeds_iff _).mpr
          ⟨_, decryptData_ok_iff.mpr ⟨h1, h2, h3, a, b, c, d, rest, rfl, rfl⟩⟩

/-- C10 witness: on the pending request of the witness scenario, a
one-element cleartext array aborts with no state change, while the
four-element array succeeds. -/
theorem claim_C10_witness :
    (succeeds (decryptData sW2 1 ["20"] true) = false ∧
      step hashOne sW2 (.cbData 1 ["20"] true) = sW2) ∧
    (succeeds (decryptData sW2 1 ["20", "55", "03", "2"] true) = true ↔
      4 ≤ (["20", "55", "03", "2"] : List String).length) :=
  ⟨(claim_C10 hashOne sW2 1 ["20"] true).1 (by decide),
   (claim_C10 hashOne sW2 1 ["20", "55", "03", "2"] true).2
     (by decide) (by decide) rfl⟩

/-- C4: a callback whose request id resolves to the reserved zero target
fails with a not-found error and mutates nothing: `decryptData` reverts with
"Invalid request", and `decryptRiskCategory` reverts with "Category not
found" (the zero pseudo-id matches no stored category label under a hash
that never returns 0, and this callback writes no storage even on
success). -/
theorem claim_C4 (hashFn : String → Nat) (s : ContractState) (r : Nat)
    (cts : List String) (c : Nat) (p : Bool)
    (hz : s.requestToDataId r = 0)
    (hh : ∀ cat ∈ s.riskCategories, hashFn cat ≠ 0) :
    decryptData s r cts p = .error "Invalid request" ∧
    step hashFn s (.cbData r cts p) = s ∧
    decryptRiskCategory hashFn s r c p = .error "Category not found" ∧
    step hashFn s (.cbCat r c p) = s := by
  have h1 : decryptData s r cts p = .error "Invalid request" :=
    decryptData_error_ne_zero hz
  refine ⟨h1, step_cbData_error h1, ?_, rfl⟩
  simp only [decryptRiskCategory]
  rw [hz, getCategoryFromHash_miss hashFn _ 0 hh]

/-- C4 witness: at deployment, request id 7 was never handed out, and both
callbacks reject it. -/
theorem claim_C4_witness :
    decryptData initState 7 ["20"] true = .error "Invalid request" ∧
    step hashOne initState (.cbData 7 ["20"] true) = initState ∧
    decryptRiskCategory hashOne initState 7 0 true = .error "Category not found" ∧
    step hashOne initState (.cbCat 7 0 true) = initState :=
  claim_C4 hashOne initState 7 ["20"] 0 true rfl (by simp [initState])

/-- C3 counterexample: the claimed existence precondition is not checked by
the code.  At deployment (`dataCount = 0`) the call
`requestDataDecryption(5)` on the nonexistent id 5 succeeds and records the
pending request `1 ↦ 5` instead of reverting. -/
theorem claim_C3_cex :
    initState.dataCount = 0 ∧
    succeeds (requestDataDecryption initState 5) = true ∧
    (step hashOne initState (.reqData 5)).requestToDataId 1 = 5 :=
  ⟨rfl, by decide, by decide⟩

/-- C3 (amended): `requestDataDecryption`'s only checked precondition is
that the target record is not yet revealed: it reverts with "Already
decrypted" exactly when `isRevealed` holds, and otherwise succeeds — even
for a nonexistent id — recording the pending request from the fresh request
id to the given id. -/
theorem claim_C3 (hashFn : String → Nat) (s : ContractState) (id : Nat) :
    ((s.decryptedDataset id).isRevealed = true →
      requestDataDecryption s id = .error "Already decrypted") ∧
    ((s.decryptedDataset id).isRevealed = false →
      succeeds (requestDataDecryption s id) = true ∧
      (step hashFn s (.reqData id)).requestToDataId s.nextRequestId = id) := by
  constructor
  · intro h
    unfold requestDataDecryption
    rw [if_pos h]
  · intro h
    have hng : ¬(s.decryptedDataset id).isRevealed = true := by simp [h]
    constructor
    · unfold requestDataDecryption
      rw [if_neg hng]
      rfl
    · simp only [step, requestDataDecryption, if_neg hng]
      exact fupdate_same _ _ _

/-- C3 witness for the amended claim: the revealed record of the witness
scenario makes a second request revert, and a request for the still-sealed
(indeed nonexistent) id 2 succeeds and is recorded. -/
theorem claim_C3_witness :
    ((sW3.decryptedDataset 1).isRevealed = true ∧
      requestDataDecryption sW3 1 = .error "Already decrypted") ∧
    ((sW3.decryptedDataset 2).isRevealed = false ∧
      succeeds (requestDataDecryption sW3 2) = true ∧
      (step hashOne sW3 (.reqData 2)).requestToDataId sW3.nextRequestId = 2) :=
  ⟨⟨by decide, (claim_C3 hashOne sW3 1).1 (by decide)⟩,
   ⟨by decide, (claim_C3 hashOne sW3 2).2 (by decide)⟩⟩

/-- C1: the reveal transition is write-once.  After a valid
`requestDataDecryption(id)` and one matching valid callback, the record's
four cleartext fields hold the decoded cleartexts and `isRevealed` is true;
any further `decryptData` callback resolving to the same id reverts with
"Already decrypted" and leaves the contract state unchanged. -/
theorem claim_C1 (hashFn : String → Nat) (s : ContractState) (id : Nat)
    (a b c d : String) (rest : List String)
    (hid : id ≠ 0)
    (hrev : (s.decryptedDataset id).isRevealed = false) :
    succeeds (requestDataDecryption s id) = true ∧
    ∃ s₂, decryptData (step hashFn s (.reqData id)) s.nextRequestId
        (a :: b :: c :: d :: rest) true = .ok s₂ ∧
      s₂.decryptedDataset id = ⟨a, b, c, d, true⟩ ∧
      ∀ r' cts' p', s₂.requestToDataId r' = id →
        decryptData s₂ r' cts' p' = .error "Already decrypted" ∧
        step hashFn s₂ (.cbData r' cts' p') = s₂ := by
  have hng : ¬(s.decryptedDataset id).isRevealed = true := by simp [hrev]
  have f1 : (step hashFn s (.reqData id)).requestToDataId s.nextRequestId = id := by
    simp only [step, requestDataDecryption, if_neg hng]
    exact fupdate_same _ _ _
  have f2 : (step hashFn s (.reqData id)).decryptedDataset = s.decryptedDataset := by
    simp only [step, requestDataDecryption, if_neg hng]
  have hok : decryptData (step hashFn s (.reqData id)) s.nextRequestId
      (a :: b :: c :: d :: rest) true =
      .ok (applyReveal (step hashFn s (.reqData id)) id a b c d) := by
    apply decryptData_ok_iff.mpr
    rw [f1, f2]
    exact ⟨hid, hrev, rfl, a, b, c, d, rest, rfl, rfl⟩
  have g1 : (applyReveal (step hashFn s (.reqData id)) id a b c d).decryptedDataset
      id = ⟨a, b, c, d, true⟩ := by
    rw [applyReveal_decryptedDataset]
    exact fupdate_same _ _ _
  refine ⟨?_, applyReveal (step hashFn s (.reqData id)) id a b c d, hok, g1, ?_⟩
  · unfold requestDataDecryption
    rw [if_neg hng]
    rfl
  · intro r' cts' p' hmap
    have hne : (applyReveal (step hashFn s (.reqData id)) id a b c d).requestToDataId
        r' ≠ 0 := by
      rw [hmap]
      exact hid
    have hrv : ((applyReveal (step hashFn s (.reqData id)) id a b c d).decryptedDataset
        ((applyReveal (step hashFn s (.reqData id)) id a b c d).requestToDataId r')).isRevealed
        = true := by
      rw [hmap, g1]
    exact ⟨decryptData_error_revealed hne hrv,
      step_cbData_error (decryptData_error_revealed hne hrv)⟩

/-- C1 witness at the concrete scenario of one submitted record. -/
theorem claim_C1_witness :
    succeeds (requestDataDecryption sW1 1) = true ∧
    ∃ s₂, decryptData (step hashOne sW1 (.reqData 1)) sW1.nextRequestId
        ("20" :: "55" :: "03" :: "2" :: []) true = .ok s₂ ∧
      s₂.decryptedDataset 1 = ⟨"20", "55", "03", "2", true⟩ ∧
      ∀ r' cts' p', s₂.requestToDataId r' = 1 →
        decryptData s₂ r' cts' p' = .error "Already decrypted" ∧
        step hashOne s₂ (.cbData r' cts' p') = s₂ :=
  claim_C1 hashOne sW1 1 "20" "55" "03" "2" [] (by decide) (by decide)

/-- Each operation leaves `dataCount` unchanged or increments it. -/
theorem step_dataCount_mono (hashFn : String → Nat) (s : ContractState)
    (op : Op) : s.dataCount ≤ (step hashFn s op).dataCount := by
  cases op with
  | submit et eh ev ef ts =>
      by_cases hc : s.dataCount + 1 < U256LIMIT
      · simp only [step, submitEncryptedData, if_pos hc]
        omega
      · simp only [step, submitEncryptedData, if_neg hc]
        exact Nat.le_refl _
  | reqData dataId =>
      by_cases hr : (s.decryptedDataset dataId).isRevealed = true
      · simp only [step, requestDataDecryption, if_pos hr]
        exact Nat.le_refl _
      · simp only [step, requestDataDecryption, if_neg hr]
        exact Nat.le_refl _
  | cbData r cts p =>
      cases hd : decryptData s r cts p with
      | error e =>
          rw [step_cbData_error hd]
      | ok s' =>
          rw [step_cbData_ok hd]
          obtain ⟨_, _, _, a, b, c, d, rest, _, hs'⟩ := decryptData_ok_iff.mp hd
          subst hs'
          rw [applyReveal_dataCount]
  | reqCat category =>
      by_cases hi : (s.encryptedRiskCategoryCount category).isInit = false
      · simp only [step, requestRiskCategoryDecryption, if_pos hi]
        exact Nat.le_refl _
      · simp only [step, requestRiskCategoryDecryption, if_neg hi]
        exact Nat.le_refl _
  | cbCat r c p =>
      exact Nat.le_refl _

/-- C6: the ids emitted by every sequence of `submitEncryptedData` calls
from deployment are the strictly increasing consecutive integers starting at
1 — the k-th successful submit yields id k (submissions past the checked
uint256 bound revert and emit nothing, so 0 is never emitted). -/
theorem claim_C6 (xs : List SubmitInput) :
    (submitMany initState xs).2 = List.range' 1 (min xs.length (U256LIMIT - 1)) := by
  have h := submitMany_ids xs initState
  simpa [initState] using h

/-- C7: `dataCount` never decreases under any operation, and in every
reachable state each id in `[1, dataCount]` holds the encrypted record
allocated under exactly that id while no record exists at id 0 or beyond
`dataCount` (each record slot is created by the submit that allocated its
id). -/
theorem claim_C7 (hashFn : String → Nat) (ops : List Op) :
    (∀ s : ContractState, ∀ op : Op, s.dataCount ≤ (step hashFn s op).dataCount) ∧
    recInv (run hashFn ops) :=
  ⟨fun s op => step_dataCount_mono hashFn s op, recInv_run hashFn ops⟩

/-- C7 witness after a single submission. -/
theorem claim_C7_witness :
    1 ≤ (run hashOne [Op.submit eW eW eW eW 0]).dataCount ∧
    ((run hashOne [Op.submit eW eW eW eW 0]).encryptedDataset 1).id = 1 :=
  ⟨by decide,
   (claim_C7 hashOne [Op.submit eW eW eW eW 0]).2.1 1 (by decide) (by decide)⟩

/-- C8: `getDecryptedData` is a pure read returning the zero tuple — four
empty strings and `isRevealed = false` — for every id with no completed
reveal, with no distinct not-found error; in particular this covers the
reserved id 0 (never written) in every reachable state. -/
theorem claim_C8 (hashFn : String → Nat) (ops : List Op) (id : Nat)
    (h : ((run hashFn ops).decryptedDataset id).isRevealed = false) :
    getDecryptedData (run hashFn ops) id = ("", "", "", "", false) ∧
    getDecryptedData (run hashFn ops) 0 = ("", "", "", "", false) := by
  obtain ⟨h1, h2⟩ := emptyInv_run hashFn ops
  constructor
  · simp [getDecryptedData, h1 id h]
  · simp [getDecryptedData, h2]

/-- C8 witness: id 3 exceeds the single submitted record and reads as the
zero tuple. -/
theorem claim_C8_witness :
    ((run hashOne [Op.submit eW eW eW eW 0]).decryptedDataset 3).isRevealed
      = false ∧
    (getDecryptedData (run hashOne [Op.submit eW eW eW eW 0]) 3
        = ("", "", "", "", false) ∧
      getDecryptedData (run hashOne [Op.submit eW eW eW eW 0]) 0
        = ("", "", "", "", false)) :=
  ⟨by decide, claim_C8 hashOne [Op.submit eW eW eW eW 0] 3 (by decide)⟩

/-- Projections of a successful aggregate-path request. -/
theorem catStep_proj (hashFn : String → Nat) (s : ContractState)
    (category : String)
    (hinit : (s.encryptedRiskCategoryCount category).isInit = true) :
    succeeds (requestRiskCategoryDecryption hashFn s category) = true ∧
    (catStep hashFn s category).2 = s.nextRequestId ∧
    (catStep hashFn s category).1.registered s.nextRequestId =
      some [(s.encryptedRiskCategoryCount category).val] ∧
    (catStep hashFn s category).1.requestToDataId s.nextRequestId =
      hashFn category ∧
    (catStep hashFn s category).1.riskCategories = s.riskCategories := by
  have hni : ¬(s.encryptedRiskCategoryCount category).isInit = false := by
    simp [hinit]
  simp [catStep, requestRiskCategoryDecryption, if_neg hni, succeeds, fupdate]

/-- Linear scan hits the head label when its hash matches. -/
theorem getCategoryFromHash_head (hashFn : String → Nat) (c : String)
    (rest : List String) :
    getCategoryFromHash hashFn (c :: rest) (hashFn c) = .ok c := by
  unfold getCategoryFromHash
  rw [if_pos rfl]

/-- After `k ≥ 1` successful reveals, the aggregate path hands the oracle
the "High" tally, whose registered plaintext is `k % 2^32`, and the valid
aggregate callback decodes exactly that value. -/
theorem aggregate_path (hashFn : String → Nat) (ops : List Op) (k : Nat)
    (hk : (runCount hashFn ops).2 = k) (hk0 : k ≠ 0) :
    succeeds (requestRiskCategoryDecryption hashFn (run hashFn ops) "High")
      = true ∧
    (catStep hashFn (run hashFn ops) "High").1.registered
      (catStep hashFn (run hashFn ops) "High").2 = some [k % 2 ^ 32] ∧
    decryptRiskCategory hashFn (catStep hashFn (run hashFn ops) "High").1
      (catStep hashFn (run hashFn ops) "High").2 (k % 2 ^ 32) true
      = .ok (k % 2 ^ 32) := by
  have hti := tallyInv_runCount hashFn ops
  rw [runCount_fst, hk] at hti
  obtain ⟨hHigh, _, hCats⟩ := hti
  rw [if_neg hk0] at hHigh hCats
  obtain ⟨w1, w2, w3, w4, w5⟩ :=
    catStep_proj hashFn (run hashFn ops) "High" (by rw [hHigh])
  refine ⟨w1, ?_, ?_⟩
  · rw [w2, w3, hHigh]
  · simp only [decryptRiskCategory]
    rw [w2, w4, w5, hCats, getCategoryFromHash_head]
    have hp : (2 : Nat) ^ 32 = 4294967296 := by norm_num
    have hmm : (k % 2 ^ 32) % 2 ^ 32 = k % 2 ^ 32 := by
      rw [hp]
      omega
    simp [hmm]

/-- C5 (amended): if exactly `N ≥ 1` records have been revealed into the
"High" category by successful `decryptData` callbacks, the category tally
registered with the oracle decodes, through the aggregate path, to
`N % 2^32` — i.e. exactly `N` whenever `N < 2^32` (the `euint32` tally
wraps). -/
theorem claim_C5 (hashFn : String → Nat) (ops : List Op) (N : Nat)
    (hN : 1 ≤ N) (hcount : (runCount hashFn ops).2 = N) (hlt : N < 2 ^ 32) :
    succeeds (requestRiskCategoryDecryption hashFn (run hashFn ops) "High")
      = true ∧
    (catStep hashFn (run hashFn ops) "High").1.registered
      (catStep hashFn (run hashFn ops) "High").2 = some [N] ∧
    decryptRiskCategory hashFn (catStep hashFn (run hashFn ops) "High").1
      (catStep hashFn (run hashFn ops) "High").2 N true = .ok N := by
  have h := aggregate_path hashFn ops N hcount (by omega)
  rwa [Nat.mod_eq_of_lt hlt] at h

/-- C5 witness: a single reveal decodes to a tally of exactly 1. -/
theorem claim_C5_witness :
    (runCount hashOne opsW5).2 = 1 ∧
    (succeeds (requestRiskCategoryDecryption hashOne (run hashOne opsW5) "High")
        = true ∧
      (catStep hashOne (run hashOne opsW5) "High").1.registered
        (catStep hashOne (run hashOne opsW5) "High").2 = some [1] ∧
      decryptRiskCategory hashOne (catStep hashOne (run hashOne opsW5) "High").1
        (catStep hashOne (run hashOne opsW5) "High").2 1 true = .ok 1) :=
  ⟨by decide, claim_C5 hashOne opsW5 1 (by decide) (by decide) (by decide)⟩

/-- Projections of a successful submit step. -/
theorem step_submit_proj (hashFn : String → Nat) (s : ContractState)
    (et eh ev ef : Euint32) (ts : Nat) (hc : s.dataCount + 1 < U256LIMIT) :
    (step hashFn s (.submit et eh ev ef ts)).dataCount = s.dataCount + 1 ∧
    (step hashFn s (.submit et eh ev ef ts)).nextRequestId = s.nextRequestId ∧
    (step hashFn s (.submit et eh ev ef ts)).requestToDataId =
      s.requestToDataId ∧
    (step hashFn s (.submit et eh ev ef ts)).decryptedDataset =
      fupdate s.decryptedDataset (s.dataCount + 1) ⟨"", "", "", "", false⟩ := by
  simp [step, submitEncryptedData, if_pos hc]

/-- Projections of a successful reveal-request step. -/
theorem step_reqData_proj (hashFn : String → Nat) (s : ContractState)
    (id : Nat) (hr : (s.decryptedDataset id).isRevealed = false) :
    (step hashFn s (.reqData id)).dataCount = s.dataCount ∧
    (step hashFn s (.reqData id)).nextRequestId = s.nextRequestId + 1 ∧
    (step hashFn s (.reqData id)).requestToDataId =
      fupdate s.requestToDataId s.nextRequestId id ∧
    (step hashFn s (.reqData id)).decryptedDataset = s.decryptedDataset := by
  have hng : ¬(s.decryptedDataset id).isRevealed = true := by simp [hr]
  simp [step, requestDataDecryption, if_neg hng]

/-- Running the trace `bigTrace n` performs exactly `n` successful reveals
and allocates exactly the ids `1..n`, consuming request ids `1..n`. -/
theorem bigTrace_spec (hashFn : String → Nat) :
    ∀ n, n ≤ 2 ^ 32 →
      (runCount hashFn (bigTrace n)).2 = n ∧
      (run hashFn (bigTrace n)).dataCount = n ∧
      (run hashFn (bigTrace n)).nextRequestId = n + 1 := by
  intro n
  induction n with
  | zero => exact fun _ => ⟨rfl, rfl, rfl⟩
  | succ m ih =>
      intro hm
      obtain ⟨hk, hdc, hnr⟩ := ih (by omega)
      have hpow : (2 : Nat) ^ 32 + 1 < U256LIMIT := by norm_num [U256LIMIT]
      have hc : (run hashFn (bigTrace m)).dataCount + 1 < U256LIMIT := by
        rw [hdc]
        omega
      obtain ⟨p1, p2, p3, p4⟩ :=
        step_submit_proj hashFn (run hashFn (bigTrace m)) eW eW eW eW 0 hc
      have hrev1 : ((step hashFn (run hashFn (bigTrace m))
          (.submit eW eW eW eW 0)).decryptedDataset (m + 1)).isRevealed
          = false := by
        rw [p4, hdc, fupdate_same]
      obtain ⟨q1, q2, q3, q4⟩ := step_reqData_proj hashFn
        (step hashFn (run hashFn (bigTrace m)) (.submit eW eW eW eW 0))
        (m + 1) hrev1
      have hmap : (step hashFn (step hashFn (run hashFn (bigTrace m))
          (.submit eW eW eW eW 0)) (.reqData (m + 1))).requestToDataId (m + 1)
          = m + 1 := by
        rw [q3, p2, hnr, fupdate_same]
      have hrev2 : ((step hashFn (step hashFn (run hashFn (bigTrace m))
          (.submit eW eW eW eW 0)) (.reqData (m + 1))).decryptedDataset (m + 1)).isRevealed
          = false := by
        rw [q4]
        exact hrev1
      have hok : decryptData (step hashFn (step hashFn (run hashFn (bigTrace m))
          (.submit eW eW eW eW 0)) (.reqData (m + 1))) (m + 1)
          ["20", "55", "03", "2"] true =
          .ok (applyReveal (step hashFn (step hashFn (run hashFn (bigTrace m))
            (.submit eW eW eW eW 0)) (.reqData (m + 1))) (m + 1)
            "20" "55" "03" "2") := by
        apply decryptData_ok_iff.mpr
        rw [hmap]
        exact ⟨Nat.succ_ne_zero m, hrev2, rfl, _, _, _, _, [], rfl, rfl⟩
      have hpair : runCount hashFn (bigTrace m) = (run hashFn (bigTrace m), m) :=
        Prod.ext (runCount_fst hashFn (bigTrace m)) hk
      have hrc : runCount hashFn (bigTrace (m + 1)) =
          List.foldl (stepCount hashFn) (runCount hashFn (bigTrace m))
            (blockOps m) := by
        unfold runCount
        rw [show bigTrace (m + 1) = bigTrace m ++ blockOps m from rfl,
          List.foldl_append]
      have hrn : run hashFn (bigTrace (m + 1)) =
          List.foldl (step hashFn) (run hashFn (bigTrace m)) (blockOps m) := by
        unfold run
        rw [show bigTrace (m + 1) = bigTrace m ++ blockOps m from rfl,
          List.foldl_append]
      have hs3 : run hashFn (bigTrace (m + 1)) =
          applyReveal (step hashFn (step hashFn (run hashFn (bigTrace m))
            (.submit eW eW eW eW 0)) (.reqData (m + 1))) (m + 1)
            "20" "55" "03" "2" := by
        rw [hrn]
        show step hashFn (step hashFn (step hashFn (run hashFn (bigTrace m))
          (.submit eW eW eW eW 0)) (.reqData (m + 1)))
          (.cbData (m + 1) ["20", "55", "03", "2"] true) = _
        exact step_cbData_ok hok
      refine ⟨?_, ?_, ?_⟩
      · rw [hrc, hpair]
        show (stepCount hashFn (stepCount hashFn (stepCount hashFn
          (run hashFn (bigTrace m), m) (Op.submit eW eW eW eW 0))
          (Op.reqData (m + 1)))
          (Op.cbData (m + 1) ["20", "55", "03", "2"] true)).2 = m + 1
        show (stepCount hashFn (step hashFn (step hashFn (run hashFn (bigTrace m))
          (.submit eW eW eW eW 0)) (.reqData (m + 1)), m)
          (Op.cbData (m + 1) ["20", "55", "03", "2"] true)).2 = m + 1
        simp [stepCount, hok, succeeds]
      · rw [hs3, applyReveal_dataCount, q1, p1, hdc]
      · rw [hs3, applyReveal_nextRequestId, q2, p2, hnr]

/-- C5 counterexample to the unamended claim: after exactly 2^32 successful
reveals into "High", the registered tally plaintext is 0 and the valid
aggregate callback decodes 0, not 2^32 — the `euint32` tally has wrapped. -/
theorem claim_C5_cex :
    (runCount hashOne (bigTrace NBIG)).2 = NBIG ∧
    succeeds (requestRiskCategoryDecryption hashOne
      (run hashOne (bigTrace NBIG)) "High") = true ∧
    (catStep hashOne (run hashOne (bigTrace NBIG)) "High").1.registered
      (catStep hashOne (run hashOne (bigTrace NBIG)) "High").2 = some [0] ∧
    decryptRiskCategory hashOne
      (catStep hashOne (run hashOne (bigTrace NBIG)) "High").1
      (catStep hashOne (run hashOne (bigTrace NBIG)) "High").2 0 true
      = .ok 0 ∧
    (0 : Nat) ≠ NBIG := by
  obtain ⟨hk, _, _⟩ := bigTrace_spec hashOne NBIG (Nat.le_refl _)
  have hz : NBIG % 2 ^ 32 = 0 := Nat.mod_self _
  have h := aggregate_path hashOne (bigTrace NBIG) NBIG hk
    (by norm_num [NBIG])
  rw [hz] at h
  exact ⟨hk, h.1, h.2.1, h.2.2, by norm_num [NBIG]⟩

end ForestFire
